import Mathlib

/-!
# Verification of the DyldExtractorC Linkedit Reconstructor

Shallow embedding of `src/DyldExtractor/Converter/LinkeditOptimizer.cpp`:
the `StringPool`, the `LinkeditTracker`, and the `LinkeditOptimizer`
pipeline passes.  Machine integers are modelled as `Nat` with explicit
`% 2 ^ 32` where a 32-bit store occurs; byte buffers are modelled as
`Nat → Nat` maps from addresses to byte values; fallible operations
return `Bool × state` or `Except String state` (an error models a
C++ null-pointer dereference, i.e. undefined behaviour).
-/

/-- `INDIRECT_SYMBOL_LOCAL` from mach-o/loader.h. -/
def INDIRECT_SYMBOL_LOCAL : Nat := 0x80000000

/-- `INDIRECT_SYMBOL_ABS` from mach-o/loader.h. -/
def INDIRECT_SYMBOL_ABS : Nat := 0x40000000

/-- Modulus of a 32-bit unsigned store. -/
def u32mod : Nat := 2 ^ 32

/-- Modelled from the spec: `Utils::alignR(size, 8)` rounds `size` up to a
multiple of 8 ("Sizes stored for tracking are padded to 8"); the helper's
body lives outside `src/`. -/
def alignUp8 (n : Nat) : Nat := ((n + 7) / 8) * 8

/-- `StringPool` (LinkeditOptimizer.cpp, lines 115-168): `pool` models the
`std::map<std::string_view, uint32_t> _pool` as an association list in
insertion order (only membership, lookup and insertion are used, so the
map's internal ordering is irrelevant), `stringsLength` models
`_stringsLength`. -/
structure StringPool where
  pool : List (String × Nat)
  stringsLength : Nat
deriving DecidableEq

/-- `StringPool::addString` (lines 141-152): return the recorded offset when
a byte-equal string is present, otherwise record the string at the current
cumulative length and advance the length by `strlen + 1`. -/
def StringPool.addString (p : StringPool) (s : String) : StringPool × Nat :=
  match p.pool.find? (fun q => q.1 == s) with
  | some q => (p, q.2)
  | none =>
      ({ pool := p.pool ++ [(s, p.stringsLength)],
         stringsLength := p.stringsLength + s.length + 1 }, p.stringsLength)

/-- `StringPool::StringPool` (lines 136-139): the constructor calls
`addString("\x00")`; read as a C string, the argument is the empty string. -/
def StringPool.init : StringPool :=
  (StringPool.addString ⟨[], 0⟩ "").1

/-- A sequence of `addString` calls, keeping only the pool. -/
def StringPool.addMany (p : StringPool) (l : List String) : StringPool :=
  l.foldl (fun q s => (q.addString s).1) p

/-- One `memcpy(dest + off, string.data(), string.length())` from
`StringPool::writeStrings` (line 163), on a byte map: exactly the
`string.length()` character bytes are stored, the terminating NUL is not. -/
def writeStr (m : Nat → Nat) (off : Nat) (s : String) : Nat → Nat :=
  fun i => if off ≤ i ∧ i < off + s.length then (s.toList.getD (i - off) ' ').toNat else m i

/-- Comparison used by the `std::sort` in `StringPool::writeStrings`
(line 160): pairs `(offset, string)` ordered by offset (offsets are
distinct, so the lexicographic tie-break never applies). -/
def offLe (a b : Nat × String) : Prop := a.1 ≤ b.1

instance : DecidableRel offLe := fun a b => Nat.decLe a.1 b.1

/-- `StringPool::writeStrings` (lines 154-168): collect `(offset, string)`
pairs, sort by offset, copy each string's characters at its offset, and
return `lastOffset + lastLength + 1` (the `*strings.rbegin()` read; the
pool is never empty because the constructor seeds it, so the empty case
is unreachable and mapped to 0). -/
def StringPool.writeStrings (p : StringPool) (dest : Nat → Nat) : (Nat → Nat) × Nat :=
  let strings := List.insertionSort offLe (p.pool.map (fun q => (q.2, q.1)))
  let d := strings.foldl (fun m q => writeStr m q.1 q.2) dest
  match strings.getLast? with
  | some (off, s) => (d, off + s.length + 1)
  | none => (d, 0)

/-- `Macho::Loader::nlist` symbol record. -/
structure NList where
  n_strx : Nat
  n_type : Nat
  n_sect : Nat
  n_desc : Nat
  n_value : Nat
deriving DecidableEq

/-- An all-zero nlist: the content of a freshly `calloc`ed slot. -/
def NList.zero : NList := ⟨0, 0, 0, 0, 0⟩

/-- The fields of `Macho::Loader::dyld_info_command` used by the passes. -/
structure DyldInfoCmd where
  bind_off : Nat
  bind_size : Nat
  weak_bind_off : Nat
  weak_bind_size : Nat
  lazy_bind_off : Nat
  lazy_bind_size : Nat
  export_off : Nat
  export_size : Nat
deriving DecidableEq

/-- The fields of `Macho::Loader::symtab_command` used by the passes. -/
structure SymtabCmd where
  symoff : Nat
  nsyms : Nat
  stroff : Nat
  strsize : Nat
deriving DecidableEq

/-- The fields of `Macho::Loader::dysymtab_command` used by the passes. -/
structure DySymTabCmd where
  ilocalsym : Nat
  nlocalsym : Nat
  iextdefsym : Nat
  nextdefsym : Nat
  iundefsym : Nat
  nundefsym : Nat
  indirectsymoff : Nat
  nindirectsyms : Nat
deriving DecidableEq

/-- The fields of `Macho::Loader::linkedit_data_command` used by the passes. -/
structure LinkeditDataCmd where
  dataoff : Nat
  datasize : Nat
deriving DecidableEq

/-- Read of `std::map<uint32_t, uint32_t>` through `operator[]`
(`_newSymbolIndicies[*entry]`, line 581): a missing key default-constructs
the mapped value, so the read yields 0.  (The `operator[]` insertion of
that zero entry is observationally irrelevant: later reads of the same
key again yield 0.) -/
def mapGetD (m : List (Nat × Nat)) (k : Nat) : Nat :=
  match m.find? (fun q => q.1 == k) with
  | some q => q.2
  | none => 0

/-- Write of `std::map<uint32_t, uint32_t>` through `operator[]`
(`_newSymbolIndicies[symIndex] = _symbolsCount`, lines 432 and 473). -/
def mapSet (m : List (Nat × Nat)) (k v : Nat) : List (Nat × Nat) :=
  match m with
  | [] => [(k, v)]
  | q :: rest => if q.1 = k then (k, v) :: rest else q :: mapSet rest k v

/-- Loop body of `LinkeditOptimizer::copyIndirectSymbolTable`
(lines 574-581) for one 32-bit entry `e`.  The destination slot starts
at zero (`calloc`ed buffer).  The special-case branch stores `e`
("just copy entry"), but the store on line 581 is unconditional and
immediately overwrites the slot with the remapping-table lookup. -/
def copyIndirectEntryValue (remap : List (Nat × Nat)) (e : Nat) : Nat :=
  let slot : Nat := 0
  let slot := if e = INDIRECT_SYMBOL_ABS ∨ e = INDIRECT_SYMBOL_LOCAL ∨ e = 0 then e else slot
  let slot := mapGetD remap e
  slot

/-- The whole loop of `LinkeditOptimizer::copyIndirectSymbolTable`
(lines 572-583) over the original entries. -/
def copyIndirectEntries (remap : List (Nat × Nat)) (entries : List Nat) : List Nat :=
  entries.map (copyIndirectEntryValue remap)

/-- State of one `LinkeditOptimizer` run (LinkeditOptimizer.cpp,
lines 170-223) together with the inputs it reads and the outputs it
writes.  `oldSyms` models the original symbol table at `_symTab->symoff`,
each nlist paired with the name its `n_strx` resolves to in the original
string pool; `cacheLocalSyms` models the nlist slice (with names) that
`_copyRedactedLocalSymbols` obtains from the symbols subcache, `none`
when the subcache or the image's entry is missing; `indirectEntries`
models the `nindirectsyms` 32-bit entries at `_dySymTab->indirectsymoff`;
`newSymbols` models the nlist records written to the symbol region of the
`calloc`ed new-linkedit buffer, `newIndirectEntries` the rewritten
indirect table, and `strRegion` the byte region the string pool is
written to; `offset` is the cursor threaded through every pass.
Tracker registration calls (`_linkeditTracker.trackData`) and activity
logging are not modelled; no claim below depends on them. -/
structure OptimizerState where
  dyldInfo : Option DyldInfoCmd
  symTab : Option SymtabCmd
  dySymTab : Option DySymTabCmd
  exportTrieCmd : Option LinkeditDataCmd
  functionStartsCmd : Option LinkeditDataCmd
  dataInCodeCmd : Option LinkeditDataCmd
  linkeditOffset : Nat
  linkeditStartAddr : Nat
  nlistSize : Nat
  oldSyms : List (NList × String)
  cacheLocalSyms : Option (List (NList × String))
  indirectEntries : List Nat
  stringsPool : StringPool
  symbolsCount : Nat
  newSymbolEntriesStart : Nat
  redactedSymbolsCount : Nat
  newSymbolIndicies : List (Nat × Nat)
  hasRedactedIndirect : Bool
  newSymbols : List NList
  newIndirectEntries : List Nat
  strRegion : Nat → Nat
  offset : Nat

/-- `LinkeditOptimizer::copyBindingInfo` (lines 246-267): skip when
`_dyldInfo` is null or `bind_size` is zero; otherwise copy the blob,
store `_linkeditOffset + offset` into `bind_off` and advance the cursor
by the 8-aligned size. -/
def copyBindingInfo (st : OptimizerState) : OptimizerState :=
  match st.dyldInfo with
  | none => st
  | some di =>
      if di.bind_size ≠ 0 then
        { st with
            dyldInfo := some { di with bind_off := (st.linkeditOffset + st.offset) % u32mod },
            offset := st.offset + alignUp8 di.bind_size }
      else st

/-- `LinkeditOptimizer::copyWeakBindingInfo` (lines 269-292). -/
def copyWeakBindingInfo (st : OptimizerState) : OptimizerState :=
  match st.dyldInfo with
  | none => st
  | some di =>
      if di.weak_bind_size ≠ 0 then
        { st with
            dyldInfo := some { di with weak_bind_off := (st.linkeditOffset + st.offset) % u32mod },
            offset := st.offset + alignUp8 di.weak_bind_size }
      else st

/-- `LinkeditOptimizer::copyLazyBindingInfo` (lines 294-317). -/
def copyLazyBindingInfo (st : OptimizerState) : OptimizerState :=
  match st.dyldInfo with
  | none => st
  | some di =>
      if di.lazy_bind_size ≠ 0 then
        { st with
            dyldInfo := some { di with lazy_bind_off := (st.linkeditOffset + st.offset) % u32mod },
            offset := st.offset + alignUp8 di.lazy_bind_size }
      else st

/-- `LinkeditOptimizer::copyExportInfo` (lines 319-354): the export blob
comes from `LC_DYLD_EXPORTS_TRIE` when present, else from
`_dyldInfo->export_off`; when neither command exists the pass returns.
Line 348 stores `_linkeditStart + offset` — the numeric value of a
pointer into the mapped file, truncated by the 32-bit store — into the
`dataoff` / `export_off` field (every sibling pass stores
`_linkeditOffset + offset` instead). -/
def copyExportInfo (st : OptimizerState) : OptimizerState :=
  match st.exportTrieCmd, st.dyldInfo with
  | some et, _ =>
      if et.datasize ≠ 0 then
        { st with
            exportTrieCmd := some { et with dataoff := (st.linkeditStartAddr + st.offset) % u32mod },
            offset := st.offset + alignUp8 et.datasize }
      else st
  | none, some di =>
      if di.export_size ≠ 0 then
        { st with
            dyldInfo := some { di with export_off := (st.linkeditStartAddr + st.offset) % u32mod },
            offset := st.offset + alignUp8 di.export_size }
      else st
  | none, none => st

/-- `LinkeditOptimizer::startSymbolEntries` (lines 356-360). -/
def startSymbolEntries (st : OptimizerState) : OptimizerState :=
  { st with newSymbolEntriesStart := st.offset }

/-- `LinkeditOptimizer::searchRedactedSymbol` (lines 362-387): reads
`_dySymTab->indirectsymoff` and `_dySymTab->nindirectsyms` without any
null check — a null `_dySymTab` is a null-pointer dereference, modelled
as `Except.error`.  Otherwise count the zero entries of the original
indirect table; when at least one exists, intern `<redacted>`, emit a
single placeholder nlist (only `n_strx` and `n_type` are assigned; the
other fields keep the `calloc` zeroes), bump the symbol count by one,
advance the cursor by one nlist and set `hasRedactedIndirect`. -/
def searchRedactedSymbol (st : OptimizerState) : Except String OptimizerState :=
  match st.dySymTab with
  | none => Except.error "null dereference: dysymtab command absent"
  | some _ =>
      let st := { st with
        redactedSymbolsCount := st.redactedSymbolsCount + st.indirectEntries.count 0 }
      if st.redactedSymbolsCount ≠ 0 then
        let pr := st.stringsPool.addString "<redacted>"
        Except.ok { st with
          stringsPool := pr.1,
          symbolsCount := st.symbolsCount + 1,
          newSymbols := st.newSymbols ++ [{ NList.zero with n_strx := pr.2, n_type := 1 }],
          offset := st.offset + st.nlistSize,
          hasRedactedIndirect := true }
      else Except.ok st

/-- Loop body of `LinkeditOptimizer::_copyPublicLocalSymbols`
(lines 697-711) for one original local: skip it when its name is
literally `<redacted>`, otherwise copy the nlist with its name
re-interned and bump the copied count and the running symbol count. -/
def publicLocalStep (acc : OptimizerState × Nat) (e : NList × String) : OptimizerState × Nat :=
  if e.2 = "<redacted>" then acc
  else
    let pr := acc.1.stringsPool.addString e.2
    ({ acc.1 with
         stringsPool := pr.1,
         newSymbols := acc.1.newSymbols ++ [{ e.1 with n_strx := pr.2 }],
         symbolsCount := acc.1.symbolsCount + 1 }, acc.2 + 1)

/-- Loop body of `LinkeditOptimizer::_copyRedactedLocalSymbols`
(lines 737-748) for one recovered local: copy the nlist with its name
re-interned. -/
def redactedLocalStep (acc : OptimizerState × Nat) (e : NList × String) : OptimizerState × Nat :=
  let pr := acc.1.stringsPool.addString e.2
  ({ acc.1 with
       stringsPool := pr.1,
       newSymbols := acc.1.newSymbols ++ [{ e.1 with n_strx := pr.2 }],
       symbolsCount := acc.1.symbolsCount + 1 }, acc.2 + 1)

/-- Shared loop body of `LinkeditOptimizer::copyExportedSymbols`
(lines 422-436) and `copyImportedSymbols` (lines 463-477) for one old
symbol index: copy the nlist with its name re-interned and record
`oldIndex ↦ newIndex` in the remapping table. -/
def remapSymStep (acc : OptimizerState × Nat) (symIndex : Nat) : OptimizerState × Nat :=
  let e := acc.1.oldSyms.getD symIndex (NList.zero, "")
  let pr := acc.1.stringsPool.addString e.2
  ({ acc.1 with
       stringsPool := pr.1,
       newSymbols := acc.1.newSymbols ++ [{ e.1 with n_strx := pr.2 }],
       newSymbolIndicies := mapSet acc.1.newSymbolIndicies symIndex acc.1.symbolsCount,
       symbolsCount := acc.1.symbolsCount + 1 }, acc.2 + 1)

/-- `LinkeditOptimizer::_copyPublicLocalSymbols` (lines 682-715): return 0
when `_dySymTab` is null or `nlocalsym` is zero; otherwise walk the
original locals range `[ilocalsym, ilocalsym + nlocalsym)`, skip entries
named `<redacted>`, copy each survivor with its name re-interned, and
advance the cursor by `sizeof(nlist)` per copied entry. -/
def copyPublicLocalSymbols (st : OptimizerState) : OptimizerState × Nat :=
  match st.dySymTab with
  | none => (st, 0)
  | some d =>
      if d.nlocalsym = 0 then (st, 0)
      else
        let range := (st.oldSyms.drop d.ilocalsym).take d.nlocalsym
        let r := range.foldl publicLocalStep (st, 0)
        ({ r.1 with offset := r.1.offset + st.nlistSize * r.2 }, r.2)

/-- `LinkeditOptimizer::_copyRedactedLocalSymbols` (lines 717-752): return
0 when the symbols subcache is unavailable (no subcache, no
`localSymbolsOffset`, or no entry for this image — the failed
`_findLocalSymbolEntries` leaves an empty nlist range); otherwise copy
every recovered nlist with its name re-interned. -/
def copyRedactedLocalSymbols (st : OptimizerState) : OptimizerState × Nat :=
  match st.cacheLocalSyms with
  | none => (st, 0)
  | some syms =>
      let r := syms.foldl redactedLocalStep (st, 0)
      ({ r.1 with offset := r.1.offset + st.nlistSize * r.2 }, r.2)

/-- `LinkeditOptimizer::copyLocalSymbols` (lines 389-402): copy public
then recovered redacted locals; `dysymtab.ilocalsym` / `nlocalsym` are
rewritten only when `newSymsCount && _dySymTab` holds, i.e. only when at
least one local was copied. -/
def copyLocalSymbols (st : OptimizerState) : OptimizerState :=
  let newLocalSymbolsStartIndex := st.symbolsCount
  let p := copyPublicLocalSymbols st
  let q := copyRedactedLocalSymbols p.1
  let newSymsCount := p.2 + q.2
  if newSymsCount ≠ 0 then
    match q.1.dySymTab with
    | some d =>
        { q.1 with dySymTab := some { d with
            ilocalsym := newLocalSymbolsStartIndex,
            nlocalsym := newSymsCount } }
    | none => q.1
  else q.1

/-- `LinkeditOptimizer::copyExportedSymbols` (lines 404-443): warn and
return when `_dySymTab` is null; otherwise copy each nlist of
`[iextdefsym, iextdefsym + nextdefsym)`, re-intern its name, record
`oldIndex ↦ newIndex` in `_newSymbolIndicies`, and rewrite the
`iextdefsym` / `nextdefsym` fields when at least one was copied. -/
def copyExportedSymbols (st : OptimizerState) : OptimizerState :=
  match st.dySymTab with
  | none => st
  | some d =>
      let startIndex := st.symbolsCount
      let idxs := (List.range d.nextdefsym).map (d.iextdefsym + ·)
      let r := idxs.foldl remapSymStep (st, 0)
      let st2 := if r.2 ≠ 0 then
          { r.1 with dySymTab := some { d with iextdefsym := startIndex, nextdefsym := r.2 } }
        else r.1
      { st2 with offset := st2.offset + st.nlistSize * r.2 }

/-- `LinkeditOptimizer::copyImportedSymbols` (lines 445-484): identical to
the exported pass over `[iundefsym, iundefsym + nundefsym)`. -/
def copyImportedSymbols (st : OptimizerState) : OptimizerState :=
  match st.dySymTab with
  | none => st
  | some d =>
      let startIndex := st.symbolsCount
      let idxs := (List.range d.nundefsym).map (d.iundefsym + ·)
      let r := idxs.foldl remapSymStep (st, 0)
      let st2 := if r.2 ≠ 0 then
          { r.1 with dySymTab := some { d with iundefsym := startIndex, nundefsym := r.2 } }
        else r.1
      { st2 with offset := st2.offset + st.nlistSize * r.2 }

/-- `LinkeditOptimizer::endSymbolEntries` (lines 486-504): skip when
`_symTab` is null; otherwise reserve one nlist slot per redacted
indirect entry, then store `_linkeditOffset + _newSymbolEntriesStart`
into `symoff` and the running count into `nsyms`. -/
def endSymbolEntries (st : OptimizerState) : OptimizerState :=
  match st.symTab with
  | none => st
  | some sy =>
      { st with
          symTab := some { sy with
            symoff := (st.linkeditOffset + st.newSymbolEntriesStart) % u32mod,
            nsyms := st.symbolsCount },
          offset := st.offset + st.nlistSize * st.redactedSymbolsCount }

/-- `LinkeditOptimizer::copyFunctionStarts` (lines 506-532). -/
def copyFunctionStarts (st : OptimizerState) : OptimizerState :=
  match st.functionStartsCmd with
  | none => st
  | some fs =>
      if fs.datasize ≠ 0 then
        { st with
            functionStartsCmd := some { fs with dataoff := (st.linkeditOffset + st.offset) % u32mod },
            offset := st.offset + alignUp8 fs.datasize }
      else st

/-- `LinkeditOptimizer::copyDataInCode` (lines 534-559). -/
def copyDataInCode (st : OptimizerState) : OptimizerState :=
  match st.dataInCodeCmd with
  | none => st
  | some dc =>
      if dc.datasize ≠ 0 then
        { st with
            dataInCodeCmd := some { dc with dataoff := (st.linkeditOffset + st.offset) % u32mod },
            offset := st.offset + alignUp8 dc.datasize }
      else st

/-- `LinkeditOptimizer::copyIndirectSymbolTable` (lines 561-594): skip when
`_dySymTab` is null; otherwise rewrite every entry (see
`copyIndirectEntryValue`), store `_linkeditOffset + offset` into
`indirectsymoff` and advance by the 8-aligned table size. -/
def copyIndirectSymbolTable (st : OptimizerState) : OptimizerState :=
  match st.dySymTab with
  | none => st
  | some d =>
      { st with
          newIndirectEntries := copyIndirectEntries st.newSymbolIndicies st.indirectEntries,
          dySymTab := some { d with indirectsymoff := (st.linkeditOffset + st.offset) % u32mod },
          offset := st.offset + alignUp8 (d.nindirectsyms * 4) }

/-- `LinkeditOptimizer::copyStringPool` (lines 596-612): writes the pool,
then stores `_linkeditOffset + offset` into `_symTab->stroff` and the
unpadded size into `strsize` without any null check on `_symTab` — a
null `_symTab` is a null-pointer dereference, modelled as
`Except.error`.  The cursor advances by the 8-aligned size. -/
def copyStringPool (st : OptimizerState) : Except String OptimizerState :=
  match st.symTab with
  | none => Except.error "null dereference: symtab command absent"
  | some sy =>
      let wr := st.stringsPool.writeStrings st.strRegion
      Except.ok { st with
        strRegion := wr.1,
        symTab := some { sy with
          stroff := (st.linkeditOffset + st.offset) % u32mod,
          strsize := wr.2 },
        offset := st.offset + alignUp8 wr.2 }

/-- `memmove(dst, src, n)` on a byte map (non-overlap with the source of
the read is guaranteed by the callers' layout; the map reads the pre-call
bytes, matching memmove's defined overlap behaviour). -/
def memmoveF (m : Nat → Nat) (dst src n : Nat) : Nat → Nat :=
  fun i => if dst ≤ i ∧ i < dst + n then m (src + (i - dst)) else m i

/-- `memcpy(dst, bytes, bytes.length)` of a concrete byte list. -/
def memcpyBytes (m : Nat → Nat) (dst : Nat) (bytes : List Nat) : Nat → Nat :=
  fun i => if dst ≤ i ∧ i < dst + bytes.length then bytes.getD (i - dst) 0 else m i

/-- `memset(dst, v, n)`. -/
def memsetF (m : Nat → Nat) (dst v n : Nat) : Nat → Nat :=
  fun i => if dst ≤ i ∧ i < dst + n then v else m i

/-- Little-endian `uint32` read at address `a`. -/
def readU32 (m : Nat → Nat) (a : Nat) : Nat :=
  m a + 256 * m (a + 1) + 65536 * m (a + 2) + 16777216 * m (a + 3)

/-- Little-endian `uint32` store at address `a`. -/
def writeU32 (m : Nat → Nat) (a v : Nat) : Nat → Nat :=
  fun i =>
    if i = a then v % 256
    else if i = a + 1 then v / 256 % 256
    else if i = a + 2 then v / 65536 % 256
    else if i = a + 3 then v / 16777216 % 256
    else m i

/-- `LinkeditData` (LinkeditOptimizer.h): `offset` is the address of the
`uint32` offset field inside the owning load command, `data` the address
of the region's bytes, `dataSize` its (padded) size. -/
structure LinkeditData where
  offset : Nat
  data : Nat
  dataSize : Nat
deriving DecidableEq

/-- `LinkeditTracker` state (LinkeditOptimizer.cpp, lines 10-30): the
mapped file bytes as `mem`, the `ncmds` / `sizeofcmds` header fields,
and the cached geometry pointers as numeric addresses. -/
structure TrackerState where
  mem : Nat → Nat
  ncmds : Nat
  sizeofcmds : Nat
  headerSpaceAvailable : Nat
  commandsStart : Nat
  linkeditStart : Nat
  linkeditEnd : Nat
  trackingData : List LinkeditData

/-- `LinkeditTracker::trackData` (lines 103-110): `std::lower_bound`
insertion keeping the registry sorted by `data`. -/
def trackDataList (l : List LinkeditData) (d : LinkeditData) : List LinkeditData :=
  match l with
  | [] => [d]
  | x :: xs => if x.data < d.data then x :: trackDataList xs d else d :: x :: xs

/-- The shift reserved by `LinkeditTracker::insertLinkeditData` (line 65):
`data.dataSize + (8 - (data.dataSize % 8))`. -/
def shiftDeltaOf (n : Nat) : Nat := n + (8 - n % 8)

/-- The `lastDataEnd` computation of `LinkeditTracker::insertLinkeditData`
(lines 68-74): the end of the last tracked region (the registry is kept
sorted by `data`, so `*trackingData.rbegin()` is the highest region), or
the LINKEDIT start when nothing is tracked. -/
def lastDataEnd (st : TrackerState) : Nat :=
  match st.trackingData.getLast? with
  | some last => last.data + last.dataSize
  | none => st.linkeditStart

/-- `LinkeditTracker::insertLoadCommand` (lines 32-59): refuse (returning
`false`, state untouched) when `sizeofcmds + cmdsize` would exceed the
header space; otherwise shift the tail of the command region, copy the
new command in, advance every tracked `offset` field address at or past
the shift point, and bump `ncmds` / `sizeofcmds`.  `afterAddr` /
`afterCmdsize` are the address and size of the command to insert after;
`lcBytes` the new command's bytes (`cmdsize` is its length). -/
def insertLoadCommand (st : TrackerState) (afterAddr afterCmdsize : Nat)
    (lcBytes : List Nat) : Bool × TrackerState :=
  if st.sizeofcmds + lcBytes.length > st.headerSpaceAvailable then (false, st)
  else
    let shiftDelta := lcBytes.length
    let shiftStart := afterAddr + afterCmdsize
    let shiftEnd := st.commandsStart + st.sizeofcmds
    let m := memmoveF st.mem (shiftStart + shiftDelta) shiftStart (shiftEnd - shiftStart)
    let m := memcpyBytes m shiftStart lcBytes
    let td := st.trackingData.map fun d =>
      if shiftStart ≤ d.offset then { d with offset := d.offset + shiftDelta } else d
    (true, { st with mem := m, trackingData := td,
                     ncmds := st.ncmds + 1,
                     sizeofcmds := st.sizeofcmds + shiftDelta })

/-- `LinkeditTracker::insertLinkeditData` (lines 61-101): compute the
padded shift, refuse (returning `false`, state untouched) when the last
tracked region's end plus the shift would pass the LINKEDIT end;
otherwise shift the following bytes, add the shift to the stored `uint32`
of every tracked region at or past the insertion point and to its `data`
address, zero the 8 bytes of padding tail, copy the payload, and register
the new region (its recorded size includes the padding). -/
def insertLinkeditData (st : TrackerState) (after : Option LinkeditData)
    (dataOffsetField : Nat) (dataBytes : List Nat) : Bool × TrackerState :=
  let shiftDelta := shiftDeltaOf dataBytes.length
  if lastDataEnd st + shiftDelta > st.linkeditEnd then (false, st)
  else
    let shiftStart := match after with
      | some a => a.data + a.dataSize
      | none => st.linkeditStart
    let m := memmoveF st.mem (shiftStart + shiftDelta) shiftStart (lastDataEnd st - shiftStart)
    let m := st.trackingData.foldl
      (fun mm d =>
        if shiftStart ≤ d.data then
          writeU32 mm d.offset ((readU32 mm d.offset + shiftDelta) % u32mod)
        else mm) m
    let td := st.trackingData.map fun d =>
      if shiftStart ≤ d.data then { d with data := d.data + shiftDelta } else d
    let m := memsetF m (shiftStart + shiftDelta - 8) 0 8
    let m := memcpyBytes m shiftStart dataBytes
    (true, { st with mem := m,
                     trackingData := trackDataList td ⟨dataOffsetField, shiftStart, shiftDelta⟩ })

/-- A minimal optimizer state: no load commands, empty inputs, zeroed
buffer, cursor at 0. -/
def baseOpt : OptimizerState := {
  dyldInfo := none, symTab := none, dySymTab := none,
  exportTrieCmd := none, functionStartsCmd := none, dataInCodeCmd := none,
  linkeditOffset := 0, linkeditStartAddr := 0, nlistSize := 16,
  oldSyms := [], cacheLocalSyms := none, indirectEntries := [],
  stringsPool := StringPool.init, symbolsCount := 0,
  newSymbolEntriesStart := 0, redactedSymbolsCount := 0,
  newSymbolIndicies := [], hasRedactedIndirect := false,
  newSymbols := [], newIndirectEntries := [], strRegion := fun _ => 0, offset := 0 }

/-- A linkedit file offset of 0x4000 while the linkedit bytes sit at
memory address 0x12345678: the generic situation in which the two
quantities stored by the copy passes differ. -/
def c2State : OptimizerState := { baseOpt with
  linkeditOffset := 0x4000,
  linkeditStartAddr := 0x12345678,
  exportTrieCmd := some { dataoff := 0, datasize := 16 },
  dyldInfo := some { bind_off := 0, bind_size := 24, weak_bind_off := 0, weak_bind_size := 0,
                     lazy_bind_off := 0, lazy_bind_size := 0, export_off := 0, export_size := 0 } }

/-- An image with a symtab command but no dysymtab command. -/
def c4NoDysym : OptimizerState := { baseOpt with
  symTab := some ⟨0, 0, 0, 0⟩, dySymTab := none }

/-- An image with a dysymtab command but no symtab command. -/
def c4NoSymtab : OptimizerState := { baseOpt with
  symTab := none, dySymTab := some ⟨0, 0, 0, 0, 0, 0, 0, 0⟩ }

/-- Whether a pass result is the error modelling a null dereference. -/
def exceptIsError (x : Except String OptimizerState) : Bool :=
  match x with
  | .error _ => true
  | .ok _ => false

/-- Empty tracker over a LINKEDIT of capacity 32 at address 100. -/
def c3Tracker : TrackerState := {
  mem := fun _ => 0, ncmds := 0, sizeofcmds := 0, headerSpaceAvailable := 64,
  commandsStart := 0, linkeditStart := 100, linkeditEnd := 132, trackingData := [] }

/-- The 13-byte payload of the spec's scenario, all bytes nonzero. -/
def c3Bytes13 : List Nat := [1, 2, 3, 4, 5, 6, 7, 8, 9, 10, 11, 12, 13]

/-- Tracker of the spec's overflow scenario: `sizeofcmds` is
`header_space - 8` and the LINKEDIT has no room for a padded insertion. -/
def c5Tracker : TrackerState := {
  mem := fun _ => 0, ncmds := 3, sizeofcmds := 16, headerSpaceAvailable := 24,
  commandsStart := 32, linkeditStart := 4096, linkeditEnd := 4104, trackingData := [] }

/-- An image whose single original local is named `<redacted>` and whose
symbols subcache is unavailable: the pass copies zero locals, yet the
stale `nlocalsym = 1` of the dysymtab command survives. -/
def c7State : OptimizerState := { baseOpt with
  dySymTab := some ⟨0, 1, 0, 0, 0, 0, 0, 0⟩,
  oldSyms := [(⟨3, 14, 1, 0, 4096⟩, "<redacted>")],
  cacheLocalSyms := none }

/-- A fresh probe state over indirect table `[7, 0, 0]`. -/
def c6State : OptimizerState := { baseOpt with
  dySymTab := some ⟨0, 0, 0, 0, 0, 0, 0, 3⟩,
  indirectEntries := [7, 0, 0] }

/-- The offset just past a block of pooled strings laid out consecutively
from `n`, one NUL terminator per string. -/
def chainEnd : Nat → List (String × Nat) → Nat
  | n, [] => n
  | n, (s, _) :: rest => chainEnd (n + s.length + 1) rest

/-- The layout invariant `StringPool.addString` maintains: the pool
entries, in insertion order, carry consecutive offsets starting at `n`,
each advancing by its string's length plus the terminator. -/
def chainFrom : Nat → List (String × Nat) → Prop
  | _, [] => True
  | n, (s, off) :: rest => off = n ∧ chainFrom (n + s.length + 1) rest

/-- A well-formed pool: offsets are the consecutive layout from 0 and
`stringsLength` is the end of that layout. -/
def StringPool.WF (p : StringPool) : Prop :=
  chainFrom 0 p.pool ∧ p.stringsLength = chainEnd 0 p.pool

/-- C1: refuted as stated.  On the indirect table
`[INDIRECT_SYMBOL_ABS, INDIRECT_SYMBOL_LOCAL, 0, 7]` with remapping table
`7 ↦ 2`, the pass writes `[0, 0, 0, 2]`: the non-special entry is
remapped, but the `INDIRECT_SYMBOL_ABS` and `INDIRECT_SYMBOL_LOCAL`
sentinels are not preserved — the unconditional store on line 581
overwrites them with the remap default 0. -/
theorem copyIndirect_sentinels_not_preserved :
    copyIndirectEntries [(7, 2)] [INDIRECT_SYMBOL_ABS, INDIRECT_SYMBOL_LOCAL, 0, 7]
      = [0, 0, 0, 2] ∧
    INDIRECT_SYMBOL_ABS ≠ 0 ∧ INDIRECT_SYMBOL_LOCAL ≠ 0 := by
  decide

/-- C10: an original indirect entry whose value was never recorded in the
remapping table is rewritten to the default-constructed mapping 0. -/
theorem copyIndirect_unrecorded_defaults_zero (remap : List (Nat × Nat)) (e : Nat)
    (h : ∀ q ∈ remap, q.1 ≠ e) : copyIndirectEntryValue remap e = 0 := by
  unfold copyIndirectEntryValue mapGetD
  have hf : remap.find? (fun q => q.1 == e) = none := by
    apply List.find?_eq_none.mpr
    intro q hq
    simpa using h q hq
  rw [hf]

theorem copyIndirect_unrecorded_defaults_zero_witness :
    copyIndirectEntryValue [(5, 2)] 9 = 0 :=
  copyIndirect_unrecorded_defaults_zero [(5, 2)] 9 (by decide)

/-- C2: refuted for the export-info pass.  With the linkedit file offset
0x4000, cursor 0 and the linkedit mapped at address 0x12345678, the
export pass stores the truncated pointer 0x12345678 into the trie
command's `dataoff` — not `linkedit_file_offset + offset = 0x4000` —
while the sibling binding pass stores exactly
`linkedit_file_offset + offset`. -/
theorem copyExportInfo_stores_pointer_not_file_offset :
    ((copyExportInfo c2State).exportTrieCmd.map (fun c => c.dataoff)) = some 0x12345678 ∧
    (0x12345678 : Nat) ≠ c2State.linkeditOffset + c2State.offset ∧
    ((copyBindingInfo c2State).dyldInfo.map (fun c => c.bind_off))
      = some (c2State.linkeditOffset + c2State.offset) := by
  decide

/-- C4: refuted for the two named passes.  With the dysymtab command
absent the redacted-indirect probe dereferences the null `_dySymTab`
(lines 367-368) instead of returning, and with the symtab command absent
the string-pool pass dereferences the null `_symTab` (line 602) instead
of returning. -/
theorem missing_command_crashes_probe_and_string_pool :
    exceptIsError (searchRedactedSymbol c4NoDysym) = true ∧
    exceptIsError (copyStringPool c4NoSymtab) = true := by
  decide

/-- C3 counterexample: an 8-byte payload (already a multiple of 8) into an
empty tracker with capacity 32 succeeds but reserves a region of 16
bytes, not 8. -/
theorem insertLinkeditData_aligned_pads_extra :
    ((insertLinkeditData c3Tracker none 40 [1, 2, 3, 4, 5, 6, 7, 8]).2.trackingData.map
        (fun d => d.dataSize)) = [16] ∧ (16 : Nat) ≠ 8 := by
  decide

/-- C3 amended: the reserved shift is `size + (8 - size % 8)` — the round
up to a multiple of 8 for sizes not already aligned, but size + 8 for
aligned sizes.  The 13-byte scenario behaves as the claim states:
insertion into the empty capacity-32 tracker succeeds, the region is
tracked at the LINKEDIT start with padded size 16, bytes 13..16 of the
region are zero, and the next insertion starts at offset 16. -/
theorem insertLinkeditData_shift_amended :
    (∀ n : Nat, n % 8 = 0 → shiftDeltaOf n = n + 8) ∧
    (∀ n : Nat, n % 8 ≠ 0 → shiftDeltaOf n = alignUp8 n) ∧
    ((insertLinkeditData c3Tracker none 40 c3Bytes13).1 = true ∧
     ((insertLinkeditData c3Tracker none 40 c3Bytes13).2.trackingData.map
        (fun d => (d.data, d.dataSize))) = [(100, 16)] ∧
     (insertLinkeditData c3Tracker none 40 c3Bytes13).2.mem 113 = 0 ∧
     (insertLinkeditData c3Tracker none 40 c3Bytes13).2.mem 114 = 0 ∧
     (insertLinkeditData c3Tracker none 40 c3Bytes13).2.mem 115 = 0 ∧
     lastDataEnd (insertLinkeditData c3Tracker none 40 c3Bytes13).2 = 100 + 16) := by
  refine ⟨?_, ?_, by decide⟩
  · intro n h
    unfold shiftDeltaOf
    omega
  · intro n h
    unfold shiftDeltaOf alignUp8
    omega

theorem insertLinkeditData_shift_amended_witness :
    shiftDeltaOf 16 = 24 ∧ shiftDeltaOf 13 = alignUp8 13 :=
  ⟨insertLinkeditData_shift_amended.1 16 (by decide),
   insertLinkeditData_shift_amended.2.1 13 (by decide)⟩

/-- C5: both insufficiency checks run before any mutation, so the failing
call returns `false` with the tracker state — header fields, memory and
registry — unchanged. -/
theorem insert_overflow_nonfatal (st : TrackerState) (afterAddr afterCmdsize : Nat)
    (lcBytes : List Nat) (after : Option LinkeditData) (fieldAddr : Nat) (dataBytes : List Nat)
    (h1 : st.sizeofcmds + lcBytes.length > st.headerSpaceAvailable)
    (h2 : lastDataEnd st + shiftDeltaOf dataBytes.length > st.linkeditEnd) :
    insertLoadCommand st afterAddr afterCmdsize lcBytes = (false, st) ∧
    insertLinkeditData st after fieldAddr dataBytes = (false, st) := by
  constructor
  · unfold insertLoadCommand
    rw [if_pos h1]
  · unfold insertLinkeditData
    rw [if_pos h2]

theorem insert_overflow_nonfatal_witness :
    insertLoadCommand c5Tracker 32 8 [0, 0, 0, 0, 0, 0, 0, 0, 0, 0, 0, 0, 0, 0, 0, 0]
      = (false, c5Tracker) ∧
    insertLinkeditData c5Tracker none 40 c3Bytes13 = (false, c5Tracker) :=
  insert_overflow_nonfatal c5Tracker 32 8 _ none 40 _ (by decide) (by decide)

theorem publicLocalStep_dySymTab (acc : OptimizerState × Nat) (e : NList × String) :
    (publicLocalStep acc e).1.dySymTab = acc.1.dySymTab := by
  unfold publicLocalStep
  split <;> rfl

theorem foldl_publicLocalStep_dySymTab (l : List (NList × String)) (acc : OptimizerState × Nat) :
    (l.foldl publicLocalStep acc).1.dySymTab = acc.1.dySymTab := by
  induction l generalizing acc with
  | nil => rfl
  | cons x xs ih => rw [List.foldl_cons, ih, publicLocalStep_dySymTab]

theorem foldl_redactedLocalStep_dySymTab (l : List (NList × String)) (acc : OptimizerState × Nat) :
    (l.foldl redactedLocalStep acc).1.dySymTab = acc.1.dySymTab := by
  induction l generalizing acc with
  | nil => rfl
  | cons x xs ih => rw [List.foldl_cons, ih]; rfl

theorem copyPublicLocalSymbols_dySymTab (st : OptimizerState) :
    (copyPublicLocalSymbols st).1.dySymTab = st.dySymTab := by
  unfold copyPublicLocalSymbols
  cases hd : st.dySymTab with
  | none => simp [hd]
  | some d =>
      by_cases hz : d.nlocalsym = 0
      · simp [hz, hd]
      · simp [hz, hd, foldl_publicLocalStep_dySymTab]

theorem copyRedactedLocalSymbols_dySymTab (st : OptimizerState) :
    (copyRedactedLocalSymbols st).1.dySymTab = st.dySymTab := by
  unfold copyRedactedLocalSymbols
  cases hc : st.cacheLocalSyms with
  | none => simp [hc]
  | some syms => simp [hc, foldl_redactedLocalStep_dySymTab]

/-- C7 amended: after the local-symbols pass, `dysymtab.ilocalsym` and
`dysymtab.nlocalsym` are rewritten to the new start index (the running
symbol count before the pass) and the total number of locals copied only
when that total is nonzero; when zero locals were copied both fields are
left unchanged. -/
theorem copyLocalSymbols_dysymtab_update (st : OptimizerState) (d : DySymTabCmd)
    (hd : st.dySymTab = some d) :
    (((copyPublicLocalSymbols st).2
        + (copyRedactedLocalSymbols (copyPublicLocalSymbols st).1).2 ≠ 0) →
      (copyLocalSymbols st).dySymTab = some { d with
        ilocalsym := st.symbolsCount,
        nlocalsym := (copyPublicLocalSymbols st).2
          + (copyRedactedLocalSymbols (copyPublicLocalSymbols st).1).2 }) ∧
    (((copyPublicLocalSymbols st).2
        + (copyRedactedLocalSymbols (copyPublicLocalSymbols st).1).2 = 0) →
      (copyLocalSymbols st).dySymTab = some d) := by
  have hq : (copyRedactedLocalSymbols (copyPublicLocalSymbols st).1).1.dySymTab = some d := by
    rw [copyRedactedLocalSymbols_dySymTab, copyPublicLocalSymbols_dySymTab, hd]
  constructor
  · intro hne
    simp only [copyLocalSymbols]
    rw [if_pos hne, hq]
  · intro hz
    simp only [copyLocalSymbols]
    rw [if_neg (by simp [hz])]
    exact hq

/-- C7 counterexample: zero locals are copied, but the pass leaves the
dysymtab fields untouched, so `nlocalsym` stays 1 instead of the total
local count 0 the claim requires. -/
theorem copyLocalSymbols_stale_counts :
    (copyPublicLocalSymbols c7State).2
      + (copyRedactedLocalSymbols (copyPublicLocalSymbols c7State).1).2 = 0 ∧
    ((copyLocalSymbols c7State).dySymTab.map (fun d => d.nlocalsym)) = some 1 ∧
    (1 : Nat) ≠ 0 := by
  decide

theorem copyLocalSymbols_dysymtab_update_witness :
    (copyLocalSymbols c7State).dySymTab = some ⟨0, 1, 0, 0, 0, 0, 0, 0⟩ :=
  (copyLocalSymbols_dysymtab_update c7State ⟨0, 1, 0, 0, 0, 0, 0, 0⟩ rfl).2 (by decide)

/-- C6: with a dysymtab command present, a fresh probe (zero running
redacted count, empty symbol region), and at least one zero entry in the
original indirect table, the probe emits exactly one placeholder nlist at
the front of the symbol region — `n_strx` the pool offset of
`<redacted>`, `n_type` 1, every other field zero — increments the symbol
count by exactly one (however many zero entries exist), advances the
cursor by one nlist, and sets `hasRedactedIndirect`; with no zero entry
it changes nothing. -/
theorem searchRedacted_placeholder (st : OptimizerState) (d : DySymTabCmd)
    (hd : st.dySymTab = some d) (hr : st.redactedSymbolsCount = 0)
    (hn : st.newSymbols = []) :
    ((0 ∈ st.indirectEntries) →
      searchRedactedSymbol st = Except.ok { st with
        redactedSymbolsCount := st.indirectEntries.count 0,
        stringsPool := (st.stringsPool.addString "<redacted>").1,
        symbolsCount := st.symbolsCount + 1,
        newSymbols := [{ NList.zero with
          n_strx := (st.stringsPool.addString "<redacted>").2, n_type := 1 }],
        offset := st.offset + st.nlistSize,
        hasRedactedIndirect := true }) ∧
    ((0 ∉ st.indirectEntries) → searchRedactedSymbol st = Except.ok st) := by
  constructor
  · intro h0
    have hc : st.indirectEntries.count 0 ≠ 0 := by
      rw [Ne, List.count_eq_zero]
      simp only [not_not]
      exact h0
    simp [searchRedactedSymbol, hd, hr, hn, hc]
  · intro h0
    have hc : st.indirectEntries.count 0 = 0 := List.count_eq_zero.mpr h0
    simp only [searchRedactedSymbol, hd, hc, Nat.add_zero]
    rw [if_neg (by simp [hr]), ← hd]

theorem searchRedacted_placeholder_witness :
    searchRedactedSymbol c6State = Except.ok { c6State with
      redactedSymbolsCount := 2,
      stringsPool := (c6State.stringsPool.addString "<redacted>").1,
      symbolsCount := 1,
      newSymbols := [{ NList.zero with n_strx := 1, n_type := 1 }],
      offset := 16,
      hasRedactedIndirect := true } :=
  (searchRedacted_placeholder c6State ⟨0, 0, 0, 0, 0, 0, 0, 3⟩ rfl rfl rfl).1 (by decide)

theorem find?_append_of_some {α : Type} (f : α → Bool) {l1 : List α} (l2 : List α)
    {q : α} (h : l1.find? f = some q) : (l1 ++ l2).find? f = some q := by
  induction l1 with
  | nil => simp [List.find?] at h
  | cons x xs ih =>
      rw [List.cons_append]
      cases hx : f x with
      | true =>
          rw [List.find?_cons_of_pos _ hx] at h ⊢
          exact h
      | false =>
          rw [List.find?_cons_of_neg _ (by simp [hx])] at h ⊢
          exact ih h

theorem find?_append_of_none {α : Type} (f : α → Bool) {l1 : List α} (l2 : List α)
    (h : l1.find? f = none) : (l1 ++ l2).find? f = l2.find? f := by
  induction l1 with
  | nil => simp
  | cons x xs ih =>
      cases hx : f x with
      | true => rw [List.find?_cons_of_pos _ hx] at h; exact absurd h (by simp)
      | false =>
          rw [List.find?_cons_of_neg _ (by simp [hx])] at h
          rw [List.cons_append, List.find?_cons_of_neg _ (by simp [hx])]
          exact ih h

/-- A string found in the pool keeps its entry across any later
`addString`. -/
theorem addString_preserves_found (p : StringPool) (s t : String) (q : String × Nat)
    (h : p.pool.find? (fun q2 => q2.1 == s) = some q) :
    (p.addString t).1.pool.find? (fun q2 => q2.1 == s) = some q := by
  unfold StringPool.addString
  cases ht : p.pool.find? (fun q2 => q2.1 == t) with
  | some q3 => exact h
  | none => exact find?_append_of_some _ _ h

/-- After `addString p s`, the pool finds `s` at the returned offset. -/
theorem addString_found_self (p : StringPool) (s : String) :
    (p.addString s).1.pool.find? (fun q2 => q2.1 == s) = some (s, (p.addString s).2) := by
  unfold StringPool.addString
  cases h : p.pool.find? (fun q2 => q2.1 == s) with
  | some q =>
      have hq1 : q.1 = s := by
        have hq := List.find?_some h
        simpa using hq
      rw [h, ← hq1]
  | none =>
      rw [find?_append_of_none _ _ h]
      simp [List.find?]

/-- A found entry survives any sequence of later `addString` calls. -/
theorem addMany_preserves_found (p : StringPool) (s : String) (l : List String)
    (q : String × Nat) (h : p.pool.find? (fun q2 => q2.1 == s) = some q) :
    (p.addMany l).pool.find? (fun q2 => q2.1 == s) = some q := by
  induction l generalizing p with
  | nil => exact h
  | cons t ts ih => exact ih _ (addString_preserves_found p s t q h)

/-- When the pool already holds `s`, `addString` returns the recorded
offset and leaves the pool untouched. -/
theorem addString_of_found (p : StringPool) (s : String) (q : String × Nat)
    (h : p.pool.find? (fun q2 => q2.1 == s) = some q) :
    p.addString s = (p, q.2) := by
  unfold StringPool.addString
  rw [h]

/-- C8: deduplication by byte equality.  The freshly constructed pool
holds the single NUL entry — the empty string at offset 0 with
cumulative length 1 — so adding the empty string returns offset 0 and
changes nothing; and after a string is added, adding a byte-equal string
again at any later point returns the original offset and leaves the pool
(hence its length) unchanged, so `addString` is idempotent on offsets
and on pool length. -/
theorem stringPool_dedup :
    (StringPool.init.pool = [("", 0)] ∧ StringPool.init.stringsLength = 1) ∧
    StringPool.init.addString "" = (StringPool.init, 0) ∧
    ∀ (p : StringPool) (s : String) (l : List String),
      ((p.addString s).1.addMany l).addString s
        = ((p.addString s).1.addMany l, (p.addString s).2) := by
  refine ⟨⟨rfl, rfl⟩, by decide, ?_⟩
  intro p s l
  exact addString_of_found _ s _
    (addMany_preserves_found (p.addString s).1 s l _ (addString_found_self p s))

theorem chainEnd_append (n : Nat) (l : List (String × Nat)) (s : String) (off : Nat) :
    chainEnd n (l ++ [(s, off)]) = chainEnd n l + s.length + 1 := by
  induction l generalizing n with
  | nil => rfl
  | cons x xs ih =>
      cases x with
      | mk s2 o2 => simpa [chainEnd] using ih (n + s2.length + 1)

theorem chainFrom_append (n : Nat) (l : List (String × Nat)) (s : String)
    (h : chainFrom n l) : chainFrom n (l ++ [(s, chainEnd n l)]) := by
  induction l generalizing n with
  | nil => exact ⟨rfl, trivial⟩
  | cons x xs ih =>
      cases x with
      | mk s2 o2 =>
          obtain ⟨h1, h2⟩ := h
          exact ⟨h1, ih _ h2⟩

theorem addString_WF (p : StringPool) (s : String) (h : p.WF) : (p.addString s).1.WF := by
  unfold StringPool.addString
  cases hf : p.pool.find? (fun q2 => q2.1 == s) with
  | some q => exact h
  | none =>
      refine ⟨?_, ?_⟩
      · show chainFrom 0 (p.pool ++ [(s, p.stringsLength)])
        rw [h.2]
        exact chainFrom_append _ _ _ h.1
      · show p.stringsLength + s.length + 1 = chainEnd 0 (p.pool ++ [(s, p.stringsLength)])
        rw [chainEnd_append, ← h.2]

theorem addMany_WF (p : StringPool) (l : List String) (h : p.WF) : (p.addMany l).WF := by
  induction l generalizing p with
  | nil => exact h
  | cons t ts ih => exact ih _ (addString_WF p t h)

theorem init_WF : StringPool.init.WF := ⟨⟨rfl, trivial⟩, rfl⟩

theorem addString_pool_ne_nil (p : StringPool) (s : String) (h : p.pool ≠ []) :
    (p.addString s).1.pool ≠ [] := by
  unfold StringPool.addString
  cases hf : p.pool.find? (fun q2 => q2.1 == s) with
  | some q => exact h
  | none => simp

theorem addMany_pool_ne_nil (p : StringPool) (l : List String) (h : p.pool ≠ []) :
    (p.addMany l).pool ≠ [] := by
  induction l generalizing p with
  | nil => exact h
  | cons t ts ih => exact ih _ (addString_pool_ne_nil p t h)

theorem chainFrom_le (n : Nat) (l : List (String × Nat)) (h : chainFrom n l) :
    ∀ q ∈ l, n ≤ q.2 := by
  induction l generalizing n with
  | nil => intro q hq; cases hq
  | cons x xs ih =>
      cases x with
      | mk s off =>
          obtain ⟨h1, h2⟩ := h
          intro q hq
          rcases List.mem_cons.mp hq with rfl | hq2
          · exact Nat.le_of_eq h1.symm
          · have := ih _ h2 q hq2
            omega

theorem chainFrom_sorted (n : Nat) (l : List (String × Nat)) (h : chainFrom n l) :
    List.Sorted offLe (l.map (fun q => (q.2, q.1))) := by
  induction l generalizing n with
  | nil => exact List.sorted_nil
  | cons x xs ih =>
      cases x with
      | mk s off =>
          obtain ⟨h1, h2⟩ := h
          rw [List.map_cons, List.sorted_cons]
          constructor
          · intro b hb
            obtain ⟨q, hq, rfl⟩ := List.mem_map.mp hb
            have := chainFrom_le _ _ h2 q hq
            show off ≤ q.2
            omega
          · exact ih _ h2

theorem chainFrom_getLast_end (s : String) (off : Nat) (n : Nat)
    (l : List (String × Nat)) (h : chainFrom n l) (hl : l.getLast? = some (s, off)) :
    off + s.length + 1 = chainEnd n l := by
  induction l generalizing n with
  | nil => simp at hl
  | cons x xs ih =>
      cases xs with
      | nil =>
          cases x with
          | mk s2 o2 =>
              obtain ⟨h1, _⟩ := h
              have hx : (s2, o2) = (s, off) := by simpa using hl
              injection hx with hs ho
              subst hs
              subst ho
              simp [chainEnd, h1]
      | cons y ys =>
          obtain ⟨h1, h2⟩ := h
          rw [List.getLast?_cons_cons] at hl
          exact ih _ h2 hl

theorem getLast?_map_pair (l : List (String × Nat)) :
    (l.map (fun q => (q.2, q.1))).getLast? = l.getLast?.map (fun q => (q.2, q.1)) := by
  induction l with
  | nil => rfl
  | cons x xs ih =>
      cases xs with
      | nil => rfl
      | cons y ys =>
          simp only [List.map_cons] at ih ⊢
          rw [List.getLast?_cons_cons]
          exact ih

theorem foldl_writeStr_frame (L : List (Nat × String)) (m : Nat → Nat) (i : Nat)
    (h : ∀ q ∈ L, ¬ (q.1 ≤ i ∧ i < q.1 + q.2.length)) :
    (L.foldl (fun mm q => writeStr mm q.1 q.2) m) i = m i := by
  induction L generalizing m with
  | nil => rfl
  | cons x xs ih =>
      rw [List.foldl_cons]
      rw [ih _ (fun q hq => h q (List.mem_cons_of_mem _ hq))]
      simp only [writeStr]
      rw [if_neg (h x (List.mem_cons_self _ _))]

/-- C9: `writeStrings` on a pool built by `addString` calls writes only
each pooled string's characters at its assigned offset: every
destination byte outside those character ranges — in particular every
terminating NUL position and every byte between strings — is left
unchanged, so the null-terminated layout relies on the destination
having been allocated zeroed; and the returned length is the pool's
cumulative `stringsLength`, which counts one terminator per string. -/
theorem writeStrings_frame_and_total (l : List String) (dest : Nat → Nat) (i : Nat)
    (hi : ∀ q ∈ (StringPool.init.addMany l).pool, ¬ (q.2 ≤ i ∧ i < q.2 + q.1.length)) :
    ((StringPool.init.addMany l).writeStrings dest).1 i = dest i ∧
    ((StringPool.init.addMany l).writeStrings dest).2
      = (StringPool.init.addMany l).stringsLength := by
  have hwf : (StringPool.init.addMany l).WF := addMany_WF _ _ init_WF
  have hsort_eq : List.insertionSort offLe
        ((StringPool.init.addMany l).pool.map (fun q => (q.2, q.1)))
      = (StringPool.init.addMany l).pool.map (fun q => (q.2, q.1)) :=
    (chainFrom_sorted 0 _ hwf.1).insertionSort_eq
  have hne : (StringPool.init.addMany l).pool ≠ [] :=
    addMany_pool_ne_nil _ _ (by decide)
  obtain ⟨q, hq⟩ : ∃ q, (StringPool.init.addMany l).pool.getLast? = some q := by
    cases hq : (StringPool.init.addMany l).pool.getLast? with
    | none => exact absurd (List.getLast?_eq_none_iff.mp hq) hne
    | some q => exact ⟨q, rfl⟩
  have hlast : ((StringPool.init.addMany l).pool.map (fun q => (q.2, q.1))).getLast?
      = some (q.2, q.1) := by
    rw [getLast?_map_pair, hq]
    rfl
  constructor
  · simp only [StringPool.writeStrings, hsort_eq, hlast]
    apply foldl_writeStr_frame
    intro b hb
    obtain ⟨q2, hq2, rfl⟩ := List.mem_map.mp hb
    exact hi q2 hq2
  · simp only [StringPool.writeStrings, hsort_eq, hlast]
    rw [hwf.2]
    exact chainFrom_getLast_end q.1 q.2 0 _ hwf.1 (by rw [hq])

theorem writeStrings_frame_and_total_witness :
    ((StringPool.init.addMany ["a"]).writeStrings (fun _ => 7)).1 2 = 7 ∧
    ((StringPool.init.addMany ["a"]).writeStrings (fun _ => 7)).2 = 3 :=
  writeStrings_frame_and_total ["a"] (fun _ => 7) 2 (by decide)
